import Mathlib

/-!
Shallow embedding of the vwc repository (a `wc` clone with live preview).

The definitions below are translated from the Python sources:
  * `src/vwc/count.py`   — `Counts`, `char_width`, `count_stream`
  * `src/vwc/vwc.py`     — `format_line`, `compute_widths`, `run_wc`
  * `src/vwc/wc/wc.py`   — `WC.print_line`, `WC.handle_error`, `WC.run`,
                           `WC.update_totals`
  * `src/vwc/wc/linux.py` — `Linux.set_column_width`, `Linux.handle_error`
  * `src/vwc/wc/gnu.py`  — `GNU.print_line`
  * `src/vwc/wc/busybox.py` — `BusyBox.print_line`

Machine integers are Python arbitrary-precision ints, so counters are
modelled as `Int` (the word counter is transiently decremented, so `Nat`
would not be faithful).  Byte strings are `List Nat` of values < 256 and
decoded text is a `List Nat` of code points.  The locale encoding is taken
to be UTF-8; the decoders below follow CPython's UTF-8 codec with
`errors="ignore"` (maximal-subpart skipping, incomplete tails buffered by
the incremental decoder and dropped by the one-shot `bytes.decode`).
-/

namespace VWC

/-- Whitespace bytes recognised by Python's `bytes.isspace` and by the
byte-regex `\S` used for word counting in `count_stream`:
space, tab, LF, VT, FF, CR. -/
def isSpaceByte (b : Nat) : Bool :=
  b == 0x20 || b == 0x09 || b == 0x0A || b == 0x0B || b == 0x0C || b == 0x0D

/-- Number of maximal runs of non-whitespace bytes found by
`re.findall(rb"\S+", chunk)`, tracked with an in-run flag. -/
def numWordsAux : Bool → List Nat → Nat
  | _, [] => 0
  | inW, b :: rest =>
    if isSpaceByte b then numWordsAux false rest
    else (if inW then 0 else 1) + numWordsAux true rest

/-- `len(word_re.findall(chunk))` in `count_stream`. -/
def numWords (chunk : List Nat) : Nat := numWordsAux false chunk

/-- Translation of `char_width` from `src/vwc/count.py`: display width of a
code point (2 for the listed wide ranges, 0 for control characters, else 1).
The nested condition keeps the source's exact shape, including the
redundant first disjunct. -/
def char_width (cp : Nat) : Nat :=
  if 0x1100 ≤ cp ∧
      (cp ≤ 0x115F  -- Hangul Jamo
        ∨ cp ≤ 0x11A2  -- Hangul Jamo Extended-A
        ∨ (0x2E80 ≤ cp ∧ cp ≤ 0x9FFF)  -- CJK
        ∨ (0xAC00 ≤ cp ∧ cp ≤ 0xD7A3)  -- Hangul Syllables
        ∨ (0xF900 ≤ cp ∧ cp ≤ 0xFAFF)  -- CJK Compatibility Ideographs
        ∨ (0xFF00 ≤ cp ∧ cp ≤ 0xFF60)  -- Fullwidth ASCII
        ∨ (0xFFE0 ≤ cp ∧ cp ≤ 0xFFE6)) then 2  -- Fullwidth symbols
  else if cp < 32 ∨ (0x7F ≤ cp ∧ cp ≤ 0x9F) then 0  -- Control characters
  else 1

/-- Continuation byte test for UTF-8 (0x80..0xBF). -/
def utf8Cont (b : Nat) : Bool := 0x80 ≤ b && b ≤ 0xBF

/-- Result of decoding one scalar: a code point with the number of bytes
consumed, an ill-formed maximal subpart of a given length to skip, or a
request for more input when the data ends in a valid but incomplete
sequence. -/
inductive Utf8Step where
  | ch (cp : Nat) (n : Nat)
  | bad (n : Nat)
  | needMore
deriving Repr, DecidableEq

/-- One step of CPython's UTF-8 decoder: decodes the first scalar of the
byte list, reporting ill-formed maximal subparts (skipped under
`errors="ignore"`) and incomplete trailing sequences. -/
def utf8DecodeOne : List Nat → Utf8Step
  | [] => .needMore
  | b0 :: rest =>
    if b0 < 0x80 then .ch b0 1
    else if b0 < 0xC2 then .bad 1
    else if b0 < 0xE0 then
      match rest with
      | [] => .needMore
      | b1 :: _ =>
        if utf8Cont b1 then .ch ((b0 - 0xC0) * 0x40 + (b1 - 0x80)) 2
        else .bad 1
    else if b0 < 0xF0 then
      let lo2 : Nat := if b0 = 0xE0 then 0xA0 else 0x80
      let hi2 : Nat := if b0 = 0xED then 0x9F else 0xBF
      match rest with
      | [] => .needMore
      | b1 :: rest1 =>
        if lo2 ≤ b1 ∧ b1 ≤ hi2 then
          match rest1 with
          | [] => .needMore
          | b2 :: _ =>
            if utf8Cont b2 then
              .ch ((b0 - 0xE0) * 0x1000 + (b1 - 0x80) * 0x40 + (b2 - 0x80)) 3
            else .bad 2
        else .bad 1
    else if b0 < 0xF5 then
      let lo2 : Nat := if b0 = 0xF0 then 0x90 else 0x80
      let hi2 : Nat := if b0 = 0xF4 then 0x8F else 0xBF
      match rest with
      | [] => .needMore
      | b1 :: rest1 =>
        if lo2 ≤ b1 ∧ b1 ≤ hi2 then
          match rest1 with
          | [] => .needMore
          | b2 :: rest2 =>
            if utf8Cont b2 then
              match rest2 with
              | [] => .needMore
              | b3 :: _ =>
                if utf8Cont b3 then
                  .ch ((b0 - 0xF0) * 0x40000 + (b1 - 0x80) * 0x1000 +
                        (b2 - 0x80) * 0x40 + (b3 - 0x80)) 4
                else .bad 3
            else .bad 2
        else .bad 1
    else .bad 1

/-- Fuel-driven decoding loop: returns the decoded code points and the
undecoded incomplete tail.  Every step consumes at least one byte, so fuel
equal to the input length always suffices. -/
def utf8DecodeAux : Nat → List Nat → List Nat × List Nat
  | 0, bs => ([], bs)
  | fuel + 1, bs =>
    match utf8DecodeOne bs with
    | .needMore => ([], bs)
    | .ch cp n =>
      let r := utf8DecodeAux fuel (bs.drop n)
      (cp :: r.1, r.2)
    | .bad n => utf8DecodeAux fuel (bs.drop n)

/-- One-shot `chunk.decode("utf-8", errors="ignore")`: decoding is final, so
an incomplete trailing sequence is an error and is dropped. -/
def utf8DecodeIgnore (bs : List Nat) : List Nat :=
  (utf8DecodeAux (bs.length + 1) bs).1

/-- One call of the incremental decoder's `decode(chunk)` with state `buf`
(the buffered incomplete tail): decodes `buf ++ chunk`, returning the
output and the new buffered tail. -/
def utf8IncrDecode (buf chunk : List Nat) : List Nat × List Nat :=
  utf8DecodeAux ((buf ++ chunk).length + 1) (buf ++ chunk)

/-- Translation of the `Counts` accumulator (`src/vwc/count.py`); all five
counters start at zero.  Python integers are signed and unbounded, hence
`Int`. -/
structure Counts where
  lines : Int
  words : Int
  chars : Int
  bytes : Int
  max_line_length : Int
deriving Repr, DecidableEq

/-- `Counts()` — the freshly constructed, all-zero accumulator. -/
def Counts.empty : Counts := ⟨0, 0, 0, 0, 0⟩

/-- Translation of `Counts.__iadd__`: component-wise sum, except
`max_line_length`, which takes the maximum. -/
def Counts.iadd (self other : Counts) : Counts :=
  { lines := self.lines + other.lines
    words := self.words + other.words
    chars := self.chars + other.chars
    bytes := self.bytes + other.bytes
    max_line_length := max self.max_line_length other.max_line_length }

/-- Enabled-field flags of the parsed options record (order of fields
follows `FIELD_ORDER` in `src/vwc/vwc.py`). -/
structure Opts where
  lines : Bool
  words : Bool
  chars : Bool
  bytes : Bool
  max_line_length : Bool
deriving Repr, DecidableEq

/-- Width of one display line, starting from a carried width: a tab jumps
to the next multiple of 8 via `(line_width // 8 + 1) * 8` (Python floor
division is `Int.fdiv`), any other code point adds `char_width`. -/
def lineWidthFrom (start : Int) : List Nat → Int
  | [] => start
  | c :: rest =>
    if c = 9 then lineWidthFrom ((Int.fdiv start 8 + 1) * 8) rest
    else lineWidthFrom (start + (char_width c : Int)) rest

/-- Processing of the pieces after the first one produced by
`text.split("\n")`: every piece except the last is a completed line
(width counted from 0, folded into the maximum); the final piece only
seeds the carried width.  Returns `(max_line_length, curr_width)`. -/
def finishLines (maxw : Int) : List (List Nat) → Int × Int
  | [] => (maxw, 0)
  | [lastPiece] => (maxw, lineWidthFrom 0 lastPiece)
  | piece :: rest => finishLines (max maxw (lineWidthFrom 0 piece)) rest

/-- The max-line-width block of `count_stream` for one chunk of decoded
text: the text is split on newline; with no newline present only the
else-branch of the source runs, which resets `curr_width` to 0 before
scanning (discarding the carried width); otherwise the first piece
continues from the carried width and the rest are handled by
`finishLines`.  Returns `(max_line_length, curr_width)`. -/
def widthChunk (curr maxw : Int) (text : List Nat) : Int × Int :=
  match text.splitOn 10 with
  | [] => (maxw, curr)
  | [only] => (maxw, lineWidthFrom 0 only)
  | first :: rest => finishLines (max maxw (lineWidthFrom curr first)) rest

/-- Loop-carried state of `count_stream`: the accumulator plus the
cross-chunk word flag, the carried line width and the incremental
decoder's buffered tail. -/
structure StreamState where
  cnt : Counts
  in_word : Bool
  curr_width : Int
  decoderBuf : List Nat
deriving Repr, DecidableEq

/-- State at entry of the read loop of `count_stream`. -/
def initState : StreamState := ⟨Counts.empty, false, 0, []⟩

/-- Body of the read loop of `count_stream` (`src/vwc/count.py`) for one
non-empty chunk: bytes always counted; newlines counted on the raw bytes;
words counted as non-whitespace runs with a compensating decrement when
the previous chunk ended mid-word and this chunk starts with a
non-whitespace byte; characters counted through the incremental decoder;
the max-line-width block decodes the chunk a second time through the same
decoder when character counting is enabled, and otherwise decodes the
chunk alone with a one-shot ignore-errors decode. -/
def stepChunk (opts : Opts) (st : StreamState) (chunk : List Nat) : StreamState :=
  let c1 := { st.cnt with bytes := st.cnt.bytes + (chunk.length : Int) }
  let c2 := if opts.lines then { c1 with lines := c1.lines + (chunk.count 10 : Int) } else c1
  let wordsAdj : Int :=
    if st.in_word && !(isSpaceByte (chunk.headD 0x20)) then -1 else 0
  let c3 :=
    if opts.words then { c2 with words := c2.words + wordsAdj + (numWords chunk : Int) }
    else c2
  let inWord' := if opts.words then !(isSpaceByte (chunk.getLastD 0x20)) else st.in_word
  let charsDec := if opts.chars then utf8IncrDecode st.decoderBuf chunk else ([], st.decoderBuf)
  let c4 :=
    if opts.chars then { c3 with chars := c3.chars + (charsDec.1.length : Int) }
    else c3
  let buf1 := charsDec.2
  if opts.max_line_length then
    let widthDec :=
      if opts.chars then utf8IncrDecode buf1 chunk
      else (utf8DecodeIgnore chunk, buf1)
    let mw := widthChunk st.curr_width c4.max_line_length widthDec.1
    { cnt := { c4 with max_line_length := mw.1 }
      in_word := inWord', curr_width := mw.2, decoderBuf := widthDec.2 }
  else
    { cnt := c4, in_word := inWord', curr_width := st.curr_width, decoderBuf := buf1 }

/-- The read loop of `count_stream`: successive chunks are fed to
`stepChunk`; an empty read terminates the loop. -/
def count_stream_loop (opts : Opts) : StreamState → List (List Nat) → StreamState
  | st, [] => st
  | st, chunk :: rest =>
    if chunk = [] then st
    else count_stream_loop opts (stepChunk opts st chunk) rest

/-- `count_stream(f, opts, ...)` on a stream whose successive reads return
the given chunks: runs the loop from the initial state and returns the
accumulated `Counts`. -/
def count_stream (opts : Opts) (chunks : List (List Nat)) : Counts :=
  (count_stream_loop opts initState chunks).cnt

/-- Options with only one of the field flags set, used throughout. -/
def widthOnlyOpts : Opts := ⟨false, false, false, false, true⟩

def charsWidthOpts : Opts := ⟨false, false, true, false, true⟩

def charsOnlyOpts : Opts := ⟨false, false, true, false, false⟩

def defaultOpts : Opts := ⟨true, true, false, true, false⟩

/-- Right-justification in a field of `w` characters, as Python's
`str.rjust` / `f-string` width specifier with space fill. -/
def padLeft (w : Nat) (s : String) : String :=
  String.mk (List.replicate (w - s.length) ' ') ++ s

/-- Translation of `Counts.to_fields` (`src/vwc/vwc.py`): decimal strings
of the enabled fields in `FIELD_ORDER` order
(lines, words, chars, bytes, max_line_length). -/
def Counts.to_fields (c : Counts) (opts : Opts) : List String :=
  (if opts.lines then [toString c.lines] else []) ++
  (if opts.words then [toString c.words] else []) ++
  (if opts.chars then [toString c.chars] else []) ++
  (if opts.bytes then [toString c.bytes] else []) ++
  (if opts.max_line_length then [toString c.max_line_length] else [])

/-- Number of enabled fields of the options record. -/
def selectedCount (opts : Opts) : Nat :=
  (if opts.lines then 1 else 0) + (if opts.words then 1 else 0) +
  (if opts.chars then 1 else 0) + (if opts.bytes then 1 else 0) +
  (if opts.max_line_length then 1 else 0)

/-- Maximum of a list of naturals (0 on the empty list). -/
def listMax (l : List Nat) : Nat := l.foldr max 0

/-- Translation of `compute_widths` (`src/vwc/vwc.py`): one column width
per enabled field — 7 in default mode or with no rows, otherwise the
longest rendered value of that column, floored at 7. -/
def compute_widths (all_fields : List (List String)) (opts : Opts) (deflt : Bool) :
    List Nat :=
  (List.range (selectedCount opts)).map (fun i =>
    if deflt then 7
    else if all_fields = [] then 7
    else max 7 (listMax (all_fields.map (fun f => (f.getD i "").length))))

/-- Translation of `format_line` (`src/vwc/vwc.py`): each field
right-justified to its column width, the optional label appended, all
joined with single spaces. -/
def format_line (fields : List String) (label : Option String) (widths : List Nat) :
    String :=
  String.intercalate " "
    ((List.zip fields widths).map (fun p => padLeft p.2 p.1) ++
      (match label with | some l => [l] | none => []))

/-- Total-row mode of the GNU-style `--total` option. -/
inductive TotalMode where
  | auto | always | only | never
deriving Repr, DecidableEq

/-- Platform tag returned by `detect_platform` (`src/vwc/vwc.py`). -/
inductive PlatformKind where
  | gnu | linux | bsd | windows | unknown
deriving Repr, DecidableEq

/-- Outcome of processing one file inside `run_wc`'s loop: a successful
count (label `none` when the name was `-`), an `IsADirectoryError`, or any
other reported failure. -/
inductive FileOutcome where
  | success (name : Option String) (cnt : Counts)
  | isDir (name : String)
  | failed (name msg : String)
deriving Repr, DecidableEq

/-- Loop state of `run_wc`: emitted (fields, label) pairs, the parallel
list used for width computation, the running total and the error flag. -/
structure RunWcState where
  results : List (List String × Option String)
  all_fields : List (List String)
  tot : Counts
  had_error : Bool
deriving Repr, DecidableEq

/-- One iteration of `run_wc`'s file loop (`src/vwc/vwc.py`): successes
append a row and merge into the total; `IsADirectoryError` appends an
all-zero row only on the BSD platform; every failure sets the error flag. -/
def runWcStep (platform : PlatformKind) (opts : Opts) (s : RunWcState) :
    FileOutcome → RunWcState
  | .success name cnt =>
    let fields := cnt.to_fields opts
    { s with results := s.results ++ [(fields, name)]
             all_fields := s.all_fields ++ [fields]
             tot := s.tot.iadd cnt }
  | .isDir name =>
    if platform = .bsd then
      let cnt := Counts.empty
      let fields := cnt.to_fields opts
      { s with results := s.results ++ [(fields, some name)]
               all_fields := s.all_fields ++ [fields]
               tot := s.tot.iadd cnt
               had_error := true }
    else { s with had_error := true }
  | .failed _ _ => { s with had_error := true }

/-- Translation of the output phase of `run_wc` (`src/vwc/vwc.py`): after
the loop, `--total=only` replaces all results with a single unlabeled
total row, other modes may append a labeled total row; the final widths
are recomputed from the surviving rows and every row is formatted with
them.  Returns the primary-output rows and the exit code. -/
def run_wc (platform : PlatformKind) (opts : Opts) (mode : TotalMode)
    (outcomes : List FileOutcome) : List String × Nat :=
  let show_tot := mode = .always ∨ mode = .only ∨ (mode = .auto ∧ outcomes.length > 1)
  let s := outcomes.foldl (runWcStep platform opts) ⟨[], [], Counts.empty, false⟩
  let results :=
    if mode = .only then [(s.tot.to_fields opts, none)]
    else if show_tot then s.results ++ [(s.tot.to_fields opts, some "total")]
    else s.results
  let all_fields :=
    if mode = .only then [s.tot.to_fields opts]
    else if show_tot then s.all_fields ++ [s.tot.to_fields opts]
    else s.all_fields
  let final_width := compute_widths all_fields opts false
  (results.map (fun r => format_line r.1 r.2 final_width),
    if s.had_error then 1 else 0)

/-- The Counts processed by `run_wc`'s loop, merged in order: successes
contribute their counts, BSD directory hits contribute a fresh all-zero
`Counts`, failures contribute nothing. -/
def processedCounts (platform : PlatformKind) (outcomes : List FileOutcome) :
    List Counts :=
  outcomes.filterMap (fun o =>
    match o with
    | .success _ c => some c
    | .isDir _ => if platform = .bsd then some Counts.empty else none
    | .failed _ _ => none)

/-- Merge of a list of Counts into a running total, as `tot += cnt`. -/
def mergeAll (cs : List Counts) : Counts := cs.foldl Counts.iadd Counts.empty

/-- Counts array in the order used by `WC.get_counts_array`
(`src/vwc/wc/wc.py`): lines, words, bytes, chars, max width. -/
def get_counts_array (opts : Opts) (c : Counts) : List Int :=
  (if opts.lines then [c.lines] else []) ++
  (if opts.words then [c.words] else []) ++
  (if opts.bytes then [c.bytes] else []) ++
  (if opts.chars then [c.chars] else []) ++
  (if opts.max_line_length then [c.max_line_length] else [])

/-- Translation of `WC.update_totals` (`src/vwc/wc/wc.py`): only enabled
fields are accumulated — sums, except max width which takes the maximum. -/
def update_totals (opts : Opts) (total cur : Counts) : Counts :=
  { lines := if opts.lines then total.lines + cur.lines else total.lines
    words := if opts.words then total.words + cur.words else total.words
    chars := if opts.chars then total.chars + cur.chars else total.chars
    bytes := if opts.bytes then total.bytes + cur.bytes else total.bytes
    max_line_length :=
      if opts.max_line_length then max total.max_line_length cur.max_line_length
      else total.max_line_length }

/-- Translation of `WC.print_line` (`src/vwc/wc/wc.py`): every count as
`f"{count:8d} "` concatenated, then the filename. -/
def wc_print_line (counts : List Int) (filename : String) : String :=
  String.join (counts.map (fun c => padLeft 8 (toString c) ++ " ")) ++ filename

/-- Translation of `BSD.print_line` (`src/vwc/wc/bsd.py`): fixed width 7. -/
def bsd_print_line (counts : List Int) (filename : String) : String :=
  String.join (counts.map (fun c => padLeft 7 (toString c) ++ " ")) ++ filename

/-- Translation of `GNU.print_line` (`src/vwc/wc/gnu.py`): a single count
is printed bare (filename after one space); several counts are printed as
`f"{count:7d} "` concatenated, then the filename. -/
def gnu_print_line (counts : List Int) (filename : String) : String :=
  if counts.length = 1 then
    toString (counts.headD 0) ++ (if filename ≠ "" then " " ++ filename else "")
  else
    String.join (counts.map (fun c => padLeft 7 (toString c) ++ " ")) ++ filename

/-- Translation of `BusyBox.print_line` (`src/vwc/wc/busybox.py`): a
single count is printed bare; several counts are right-justified to 9 and
space-joined; the filename follows after one space. -/
def busybox_print_line (counts : List Int) (filename : String) : String :=
  if counts.length = 1 then
    toString (counts.headD 0) ++ (if filename ≠ "" then " " ++ filename else "")
  else
    String.intercalate " " (counts.map (fun c => padLeft 9 (toString c))) ++
      (if filename ≠ "" then " " ++ filename else "")

/-- What a variant's `handle_error` produces: error lines on the secondary
stream, counts rows it prints itself, and the exit status it sets. -/
structure HandlerResult where
  stderrLines : List String
  stdoutRows : List String
  exitCode : Nat
deriving Repr, DecidableEq

/-- Translation of `WC.handle_error` (`src/vwc/wc/wc.py`): report
`"exe: filename: strerror"` once on stderr and set exit status 1; no row
is printed. -/
def wc_handle_error (exe filename strerror : String) : HandlerResult :=
  ⟨[exe ++ ": " ++ filename ++ ": " ++ strerror], [], 1⟩

/-- Translation of `Linux.handle_error` (`src/vwc/wc/linux.py`): the base
report, plus — for `IsADirectoryError` only — a zero-counts row printed
through the subclass's `print_line`. -/
def linux_handle_error (printLine : List Int → String → String) (opts : Opts)
    (exe filename strerror : String) (isDir : Bool) : HandlerResult :=
  let base := wc_handle_error exe filename strerror
  if isDir then
    { base with stdoutRows := [printLine (get_counts_array opts Counts.empty) filename] }
  else base

/-- The three platform variants under test. -/
inductive Variant where
  | gnu | bsd | busybox
deriving Repr, DecidableEq

/-- Error handling per the class hierarchy: `GNU` and `BSD` extend `WC`
and inherit `WC.handle_error` unchanged; `BusyBox` extends `Linux` and
inherits `Linux.handle_error` (zero row on directories) with its own
`print_line`. -/
def variant_handle_error (v : Variant) (opts : Opts)
    (exe filename strerror : String) (isDir : Bool) : HandlerResult :=
  match v with
  | .gnu => wc_handle_error exe filename strerror
  | .bsd => wc_handle_error exe filename strerror
  | .busybox => linux_handle_error busybox_print_line opts exe filename strerror isDir

/-- Stat outcome of one argument name as examined by
`Linux.set_column_width`: the stdin convention (`-` or empty), a failed
`os.stat`, a non-regular file, or a regular file with its byte size. -/
inductive FileMeta where
  | stdinName
  | statFailed
  | nonRegular
  | regular (size : Nat)
deriving Repr, DecidableEq

/-- `len(str(n))` — the number of decimal digits of a natural number. -/
def digitsLen (n : Nat) : Nat :=
  if h : n < 10 then 1 else digitsLen (n / 10) + 1
termination_by n
decreasing_by exact Nat.div_lt_self (by omega) (by omega)

/-- The size-scanning loop of `Linux.set_column_width`: stdin or a
non-regular entry stops with width 7; stat failures are skipped; a regular
file adds its size to the running sum, widens the column to the digit
count and stops at the cap of 7. -/
def scw_loop : Nat → Nat → List FileMeta → Nat
  | cw, _, [] => cw
  | cw, totalSize, f :: rest =>
    match f with
    | .stdinName => 7
    | .statFailed => scw_loop cw totalSize rest
    | .nonRegular => 7
    | .regular size =>
      let ts := totalSize + size
      let cw' := max cw (digitsLen ts)
      if 7 ≤ cw' then 7 else scw_loop cw' ts rest

/-- Translation of `Linux.set_column_width` (`src/vwc/wc/linux.py`):
width 1 in total-only mode, 7 with no argument names, otherwise the
scanning loop starting from width 1 and an empty running sum. -/
def set_column_width (totalOnly : Bool) (files : List FileMeta) : Nat :=
  if totalOnly then 1
  else if files = [] then 7
  else scw_loop 1 0 files

/-- Total byte size of the regular files in a list of stat outcomes (the
final value of `total_size` in `Linux.set_column_width` when the loop
does not stop early). -/
def sumSizes : List FileMeta → Nat
  | [] => 0
  | .regular s :: rest => s + sumSizes rest
  | _ :: rest => sumSizes rest

/-- A row as the GNU formatter would print it if it justified each count
to the given column width (the `formatRow` contract of the spec). -/
def gnu_row_with_width (w : Nat) (counts : List Int) (filename : String) : String :=
  String.join (counts.map (fun c => padLeft w (toString c) ++ " ")) ++ filename

/-- One named entry of a `WC.run` invocation, by how it fares: the open
failed, processing failed midway, or the file was counted successfully. -/
inductive Entry where
  | openFailed (name msg : String)
  | procFailed (name msg : String)
  | ok (name : String) (cnt : Counts)
deriving Repr, DecidableEq

/-- State threaded through `WC.run`'s loop: primary rows, secondary error
lines, the exit status and the running totals. -/
structure RunState where
  rows : List String
  errs : List String
  exitCode : Nat
  tot : Counts
deriving Repr, DecidableEq

/-- One iteration of `WC.run`'s loop (`src/vwc/wc/wc.py`): failures are
reported once through `handle_error` (which sets status 1); successes
print their row and merge into the totals. -/
def wcRunStep (opts : Opts) (exe : String) (s : RunState) : Entry → RunState
  | .openFailed name msg =>
    { s with errs := s.errs ++ [exe ++ ": " ++ name ++ ": " ++ msg], exitCode := 1 }
  | .procFailed name msg =>
    { s with errs := s.errs ++ [exe ++ ": " ++ name ++ ": " ++ msg], exitCode := 1 }
  | .ok name cnt =>
    { s with rows := s.rows ++ [wc_print_line (get_counts_array opts cnt) name]
             tot := update_totals opts s.tot cnt }

/-- Translation of `WC.run` (`src/vwc/wc/wc.py`): exit status starts at 0,
every entry is visited in order, and `print_totals` appends a `total` row
when more than one file argument was given. -/
def wc_run (opts : Opts) (exe : String) (entries : List Entry) : RunState :=
  let s := entries.foldl (wcRunStep opts exe) ⟨[], [], 0, Counts.empty⟩
  if entries.length > 1 then
    { s with rows := s.rows ++ [wc_print_line (get_counts_array opts s.tot) "total"] }
  else s

/-- Error line contributed by an entry, if it fails. -/
def entryErrMsg (exe : String) : Entry → Option String
  | .openFailed n m => some (exe ++ ": " ++ n ++ ": " ++ m)
  | .procFailed n m => some (exe ++ ": " ++ n ++ ": " ++ m)
  | .ok _ _ => none

/-- Row contributed by an entry, if it succeeds. -/
def entryRow (opts : Opts) : Entry → Option String
  | .ok n c => some (wc_print_line (get_counts_array opts c) n)
  | _ => none

/-- Whether an entry fails. -/
def entryFails : Entry → Bool
  | .ok _ _ => false
  | _ => true

/-- Counts of the successful entries, in order. -/
def okCounts (entries : List Entry) : List Counts :=
  entries.filterMap (fun e => match e with | .ok _ c => some c | _ => none)

/-- Invariant carried through `count_stream`'s loop in the proofs below:
every counter, and the carried width, is non-negative, and whenever the
previous chunk ended mid-word at least one word has been counted. -/
def goodState (s : StreamState) : Prop :=
  0 ≤ s.cnt.lines ∧ 0 ≤ s.cnt.words ∧ 0 ≤ s.cnt.chars ∧ 0 ≤ s.cnt.bytes ∧
  0 ≤ s.cnt.max_line_length ∧ 0 ≤ s.curr_width ∧
  (s.in_word = true → 1 ≤ s.cnt.words)

-- Decoder sanity checks, matching CPython's incremental UTF-8 decoder.
example : utf8DecodeIgnore [0xA9, 0xC3, 0xA9, 10, 0xC3] = [0xE9, 10] := by decide
example : utf8IncrDecode [] [0xA9, 0xC3, 0xA9, 10, 0xC3] = ([0xE9, 10], [0xC3]) := by decide
example : utf8IncrDecode [0xC3] [0xA9, 0xC3, 0xA9, 10, 0xC3] =
    ([0xE9, 0xE9, 10], [0xC3]) := by decide
example : utf8DecodeIgnore [0xE1, 0x84, 0x80, 9, 120] = [0x1100, 9, 120] := by decide

-- Scenario A of the spec: "foo bar\nbaz\n" with default fields.
example :
    count_stream defaultOpts
      [[102, 111, 111, 32, 98, 97, 114, 10, 98, 97, 122, 10]] =
      { lines := 2, words := 3, chars := 0, bytes := 12, max_line_length := 0 } := by
  decide

-- Chunk-boundary sanity for the byte-level counters.
example :
    count_stream defaultOpts [[102, 111, 111, 32, 98], [97, 114, 10, 98, 97, 122, 10]] =
      { lines := 2, words := 3, chars := 0, bytes := 12, max_line_length := 0 } := by
  decide

/-- C1: chunk-boundary invariance fails on the code.  Feeding the bytes
`ab\n` as the three chunks `a`, `b`, `\n` with the max-line-width field
enabled yields `max_line_length = 1`, while feeding the same bytes as one
chunk yields 2: when a chunk contains no newline, the carried width is
reset to 0 before the chunk's characters are scanned, so a line spanning
such a boundary loses the width accumulated before it. -/
theorem C1_chunk_invariance_fails :
    (count_stream widthOnlyOpts [[97], [98], [10]]).max_line_length = 1 ∧
    (count_stream widthOnlyOpts [[97, 98, 10]]).max_line_length = 2 ∧
    count_stream widthOnlyOpts [[97], [98], [10]] ≠
      count_stream widthOnlyOpts [[97, 98, 10]] := by
  decide

/-- C3: on the single-line input "one wide character (U+1100, UTF-8 bytes
E1 84 80), one tab, one `x`" with the max-line-width field enabled, the
code reports `max_line_length = 0`, not 9: the final unterminated line's
running width (which does reach 9 = 2 + tab-to-8 + 1) is never flushed
into the maximum.  Appending a newline produces the claimed 9, which
isolates the missing final flush as the only discrepancy. -/
theorem C3_wide_tab_line_width :
    (count_stream widthOnlyOpts [[0xE1, 0x84, 0x80, 9, 120]]).max_line_length = 0 ∧
    (count_stream widthOnlyOpts [[0xE1, 0x84, 0x80, 9, 120, 10]]).max_line_length = 9 := by
  decide

/-- C9: the reported max line width is NOT independent of the chars flag.
On the single chunk A9 C3 A9 0A C3, enabling chars + max-line-width gives
`max_line_length = 2` while max-line-width alone gives 1: instead of
reusing the decoded text, the code decodes the chunk a second time through
the incremental decoder, whose buffered tail (C3) then combines with the
chunk's leading continuation byte (A9) into an extra character.  The chars
count itself is unaffected by the extra decode (2 in both runs). -/
theorem C9_width_depends_on_chars_flag :
    (count_stream charsWidthOpts [[0xA9, 0xC3, 0xA9, 10, 0xC3]]).max_line_length = 2 ∧
    (count_stream widthOnlyOpts [[0xA9, 0xC3, 0xA9, 10, 0xC3]]).max_line_length = 1 ∧
    (count_stream charsWidthOpts [[0xA9, 0xC3, 0xA9, 10, 0xC3]]).chars = 2 ∧
    (count_stream charsOnlyOpts [[0xA9, 0xC3, 0xA9, 10, 0xC3]]).chars = 2 := by
  decide

/-- C6 counterexample: on a directory argument the BSD variant does report
an error, prints no zero row, and sets the exit status to 1 — each the
opposite of the claim's BSD clause — while the BusyBox variant, claimed to
skip the directory without a row, does print one. -/
theorem C6_counterexample :
    (variant_handle_error .bsd defaultOpts "wc" "somedir" "Is a directory" true).stdoutRows
        = [] ∧
    (variant_handle_error .bsd defaultOpts "wc" "somedir" "Is a directory" true).exitCode
        = 1 ∧
    (variant_handle_error .bsd defaultOpts "wc" "somedir" "Is a directory" true).stderrLines
        ≠ [] ∧
    (variant_handle_error .busybox defaultOpts "wc" "somedir" "Is a directory" true).stdoutRows
        ≠ [] := by
  decide

/-- C6 (amended): on a directory argument every variant reports the error
once on the secondary stream and sets exit status 1; the BusyBox variant
(through `Linux.handle_error`) additionally prints an all-zero counts row,
while the GNU and BSD variants print no row. -/
theorem C6_directory_policy (v : Variant) (opts : Opts) (exe name msg : String) :
    (variant_handle_error v opts exe name msg true).stderrLines =
      [exe ++ ": " ++ name ++ ": " ++ msg] ∧
    (variant_handle_error v opts exe name msg true).exitCode = 1 ∧
    (v = .busybox →
      (variant_handle_error v opts exe name msg true).stdoutRows =
        [busybox_print_line (get_counts_array opts Counts.empty) name]) ∧
    ((v = .gnu ∨ v = .bsd) →
      (variant_handle_error v opts exe name msg true).stdoutRows = []) := by
  cases v <;>
    simp [variant_handle_error, wc_handle_error, linux_handle_error]

/-- C6 witness: the amended theorem applied to the BusyBox variant at a
concrete directory, with the zero row evaluated. -/
theorem C6_directory_policy_witness :
    (variant_handle_error .busybox defaultOpts "wc" "d" "Is a directory" true).stdoutRows =
      [busybox_print_line (get_counts_array defaultOpts Counts.empty) "d"] ∧
    busybox_print_line (get_counts_array defaultOpts Counts.empty) "d" =
      "        0         0         0 d" :=
  ⟨(C6_directory_policy .busybox defaultOpts "wc" "d" "Is a directory").2.2.1 rfl,
    by decide⟩

/-- C2: merging one `Counts` into another sums lines, words, chars and
bytes and takes the maximum of the max line widths; `WC.update_totals`
(which guards each field on its flag) coincides with that merge whenever
the per-file value of every disabled field is zero (which `count_stream`
guarantees) and the accumulated width is non-negative. -/
theorem C2_merge_correctness (a b : Counts) :
    (a.iadd b).lines = a.lines + b.lines ∧
    (a.iadd b).words = a.words + b.words ∧
    (a.iadd b).chars = a.chars + b.chars ∧
    (a.iadd b).bytes = a.bytes + b.bytes ∧
    (a.iadd b).max_line_length = max a.max_line_length b.max_line_length ∧
    (∀ opts : Opts,
      (0 ≤ a.max_line_length ∧
        (opts.lines = false → b.lines = 0) ∧ (opts.words = false → b.words = 0) ∧
        (opts.chars = false → b.chars = 0) ∧ (opts.bytes = false → b.bytes = 0) ∧
        (opts.max_line_length = false → b.max_line_length = 0)) →
      update_totals opts a b = a.iadd b) := by
  refine ⟨rfl, rfl, rfl, rfl, rfl, ?_⟩
  rintro ⟨l, w, c, bt, m⟩ ⟨ha, h1, h2, h3, h4, h5⟩
  simp only [update_totals, Counts.iadd, Counts.mk.injEq]
  cases l <;> cases w <;> cases c <;> cases bt <;> cases m <;> simp_all

/-- C2 witness: the merge theorem applied at concrete operands, with the
`update_totals` agreement discharged for fully enabled options. -/
theorem C2_merge_correctness_witness :
    update_totals ⟨true, true, true, true, true⟩ ⟨1, 2, 3, 4, 5⟩ ⟨10, 20, 30, 40, 50⟩ =
      Counts.iadd ⟨1, 2, 3, 4, 5⟩ ⟨10, 20, 30, 40, 50⟩ ∧
    Counts.iadd ⟨1, 2, 3, 4, 5⟩ ⟨10, 20, 30, 40, 50⟩ = ⟨11, 22, 33, 44, 50⟩ :=
  ⟨(C2_merge_correctness ⟨1, 2, 3, 4, 5⟩ ⟨10, 20, 30, 40, 50⟩).2.2.2.2.2
      ⟨true, true, true, true, true⟩ (by decide),
    by decide⟩

/-- C8: `char_width` is total with values in 0..2: it returns 2 exactly on
the union of the code's wide ranges (Hangul Jamo 1100..115F together with
the adjacent 1160..11A2 block the source labels Extended-A, CJK
2E80..9FFF, Hangul Syllables AC00..D7A3, CJK Compatibility Ideographs
F900..FAFF, Fullwidth ASCII FF00..FF60, Fullwidth symbols FFE0..FFE6), 0
exactly on the C0 controls (< 0x20) and 0x7F..0x9F, and 1 on every other
code point. -/
theorem C8_char_width_total (cp : Nat) :
    (char_width cp = 0 ∨ char_width cp = 1 ∨ char_width cp = 2) ∧
    (char_width cp = 2 ↔
      ((0x1100 ≤ cp ∧ cp ≤ 0x115F) ∨ (0x1100 ≤ cp ∧ cp ≤ 0x11A2) ∨
        (0x2E80 ≤ cp ∧ cp ≤ 0x9FFF) ∨ (0xAC00 ≤ cp ∧ cp ≤ 0xD7A3) ∨
        (0xF900 ≤ cp ∧ cp ≤ 0xFAFF) ∨ (0xFF00 ≤ cp ∧ cp ≤ 0xFF60) ∨
        (0xFFE0 ≤ cp ∧ cp ≤ 0xFFE6))) ∧
    (char_width cp = 0 ↔ (cp < 0x20 ∨ (0x7F ≤ cp ∧ cp ≤ 0x9F))) ∧
    (char_width cp = 1 ↔
      ¬ ((0x1100 ≤ cp ∧ cp ≤ 0x11A2) ∨
        (0x2E80 ≤ cp ∧ cp ≤ 0x9FFF) ∨ (0xAC00 ≤ cp ∧ cp ≤ 0xD7A3) ∨
        (0xF900 ≤ cp ∧ cp ≤ 0xFAFF) ∨ (0xFF00 ≤ cp ∧ cp ≤ 0xFF60) ∨
        (0xFFE0 ≤ cp ∧ cp ≤ 0xFFE6)) ∧
      ¬ (cp < 0x20 ∨ (0x7F ≤ cp ∧ cp ≤ 0x9F))) := by
  unfold char_width
  split_ifs <;>
    refine ⟨by omega, ?_, ?_, ?_⟩ <;>
    constructor <;>
    intro h <;>
    first
      | exact h.elim
      | omega

/-- Helper: the total accumulated by `run_wc`'s loop is the in-order merge
of the processed files' Counts onto the initial total. -/
theorem runWcFold_tot (platform : PlatformKind) (opts : Opts) :
    ∀ (outcomes : List FileOutcome) (s : RunWcState),
      (outcomes.foldl (runWcStep platform opts) s).tot =
        (processedCounts platform outcomes).foldl Counts.iadd s.tot := by
  intro outcomes
  induction outcomes with
  | nil => intro s; rfl
  | cons o rest ih =>
    intro s
    cases o with
    | success name cnt =>
      simp only [List.foldl_cons, processedCounts, List.filterMap_cons]
      rw [ih]
      rfl
    | isDir name =>
      by_cases hp : platform = PlatformKind.bsd
      · subst hp
        simp only [List.foldl_cons, processedCounts, List.filterMap_cons]
        rw [ih]
        simp [runWcStep, processedCounts]
      · simp only [List.foldl_cons, processedCounts, List.filterMap_cons]
        rw [ih]
        simp [runWcStep, hp, processedCounts]
    | failed name msg =>
      simp only [List.foldl_cons, processedCounts, List.filterMap_cons]
      rw [ih]
      rfl

/-- C5: with `--total=only`, for any platform, any options and any file
outcomes, the primary output of `run_wc` is exactly one row, carrying no
label, formatted from the merge of all processed files' Counts (the
per-file results accumulated by the loop are discarded). -/
theorem C5_total_only (platform : PlatformKind) (opts : Opts)
    (outcomes : List FileOutcome) :
    (run_wc platform opts .only outcomes).1 =
      [format_line ((mergeAll (processedCounts platform outcomes)).to_fields opts) none
        (compute_widths [(mergeAll (processedCounts platform outcomes)).to_fields opts]
          opts false)] ∧
    (run_wc platform opts .only outcomes).1.length = 1 := by
  unfold run_wc
  simp only [reduceCtorEq, if_true, if_false]
  constructor
  · simp [runWcFold_tot, mergeAll]
  · simp

/-- Helper: full characterization of `WC.run`'s loop — rows come from the
successful entries in order, error lines from the failing entries in
order, the exit status becomes 1 exactly when some entry fails, and the
totals fold the successful counts through `update_totals`. -/
theorem wcRunFold (opts : Opts) (exe : String) :
    ∀ (entries : List Entry) (s : RunState),
      entries.foldl (wcRunStep opts exe) s =
        ⟨s.rows ++ entries.filterMap (entryRow opts),
          s.errs ++ entries.filterMap (entryErrMsg exe),
          if entries.any entryFails then 1 else s.exitCode,
          (okCounts entries).foldl (update_totals opts) s.tot⟩ := by
  intro entries
  induction entries with
  | nil => intro s; simp [okCounts]
  | cons e rest ih =>
    intro s
    cases e with
    | openFailed n m =>
      simp only [List.foldl_cons, List.filterMap_cons, List.any_cons]
      rw [ih]
      simp [wcRunStep, entryRow, entryErrMsg, entryFails, okCounts]
    | procFailed n m =>
      simp only [List.foldl_cons, List.filterMap_cons, List.any_cons]
      rw [ih]
      simp [wcRunStep, entryRow, entryErrMsg, entryFails, okCounts]
    | ok n c =>
      simp only [List.foldl_cons, List.filterMap_cons, List.any_cons]
      rw [ih]
      simp [wcRunStep, entryRow, entryErrMsg, entryFails, okCounts]

/-- C7: if at least one entry of a `WC.run` invocation fails, every
failing entry is reported exactly once (in order) on the secondary
stream, the rows of all successful entries are still emitted (followed
only by the optional total row), and the exit status is 1; a run with no
failing entry exits with status 0. -/
theorem C7_error_recovery (opts : Opts) (exe : String) (entries : List Entry) :
    ((∃ e ∈ entries, entryFails e = true) →
      (wc_run opts exe entries).errs = entries.filterMap (entryErrMsg exe) ∧
      (wc_run opts exe entries).rows =
        entries.filterMap (entryRow opts) ++
          (if entries.length > 1 then
            [wc_print_line (get_counts_array opts
              ((okCounts entries).foldl (update_totals opts) Counts.empty)) "total"]
          else []) ∧
      (wc_run opts exe entries).exitCode = 1) ∧
    ((∀ e ∈ entries, entryFails e = false) →
      (wc_run opts exe entries).exitCode = 0) := by
  have hfold := wcRunFold opts exe entries ⟨[], [], 0, Counts.empty⟩
  constructor
  · intro hex
    have hany : entries.any entryFails = true := by
      rw [List.any_eq_true]
      obtain ⟨e, he, hf⟩ := hex
      exact ⟨e, he, hf⟩
    unfold wc_run
    rw [hfold]
    simp [hany]
    split_ifs <;> first | rfl | simp
  · intro hall
    have hany : entries.any entryFails = false := by
      rw [List.any_eq_false]
      intro e he
      simp [hall e he]
    unfold wc_run
    rw [hfold]
    simp [hany]
    split_ifs <;> rfl

/-- C7 witness: a three-entry run whose middle entry fails to open — the
theorem applied there gives exit status 1 and the single error line, and
the two successful rows plus the total row are still emitted. -/
theorem C7_error_recovery_witness :
    (wc_run defaultOpts "wc"
      [.ok "a" ⟨1, 2, 0, 4, 0⟩, .openFailed "b" "No such file or directory",
        .ok "c" ⟨3, 4, 0, 9, 0⟩]).exitCode = 1 ∧
    (wc_run defaultOpts "wc"
      [.ok "a" ⟨1, 2, 0, 4, 0⟩, .openFailed "b" "No such file or directory",
        .ok "c" ⟨3, 4, 0, 9, 0⟩]).errs = ["wc: b: No such file or directory"] ∧
    (wc_run defaultOpts "wc"
      [.ok "a" ⟨1, 2, 0, 4, 0⟩, .openFailed "b" "No such file or directory",
        .ok "c" ⟨3, 4, 0, 9, 0⟩]).rows.length = 3 :=
  have h := (C7_error_recovery defaultOpts "wc"
    [.ok "a" ⟨1, 2, 0, 4, 0⟩, .openFailed "b" "No such file or directory",
      .ok "c" ⟨3, 4, 0, 9, 0⟩]).1 (by decide)
  ⟨h.2.2, by decide, by decide⟩

/-- C4 counterexample: with total-only mode active the computed column
width is 1, yet the GNU formatter prints a two-count row padded to 7
columns, not to the computed width — so not every printed GNU row uses
the computed width. -/
theorem C4_counterexample :
    set_column_width true [.regular 5] = 1 ∧
    gnu_print_line [3, 7] "" ≠
      gnu_row_with_width (set_column_width true [.regular 5]) [3, 7] "" := by
  decide

/-- Helper: `digitsLen` is at least 1. -/
theorem digitsLen_pos (n : Nat) : 1 ≤ digitsLen n := by
  unfold digitsLen
  split <;> omega

/-- Helper: `digitsLen n ≤ d` exactly when `n < 10 ^ d`, for `d ≥ 1`. -/
theorem digitsLen_le_iff (n : Nat) : ∀ d, 1 ≤ d → (digitsLen n ≤ d ↔ n < 10 ^ d) := by
  induction n using Nat.strong_induction_on with
  | _ n ih =>
    intro d hd
    rw [digitsLen]
    split
    · rename_i h10
      have h10d : 10 ≤ 10 ^ d := by
        calc (10 : Nat) = 10 ^ 1 := (pow_one 10).symm
        _ ≤ 10 ^ d := Nat.pow_le_pow_right (by omega) hd
      constructor
      · intro _
        omega
      · intro _
        exact hd
    · rename_i h10
      push_neg at h10
      rcases Nat.eq_or_lt_of_le hd with hd1 | hd2
      · rw [← hd1]
        have := digitsLen_pos (n / 10)
        constructor
        · intro hle
          omega
        · intro hlt
          rw [pow_one] at hlt
          omega
      · have hdd : 1 ≤ d - 1 := by omega
        have hrec := ih (n / 10) (Nat.div_lt_self (by omega) (by omega)) (d - 1) hdd
        have hpow : 10 ^ d = 10 ^ (d - 1) * 10 := by
          rw [← pow_succ]
          congr 1
          omega
        have hiff : n / 10 < 10 ^ (d - 1) ↔ n < 10 ^ (d - 1) * 10 :=
          Nat.div_lt_iff_lt_mul (by omega)
        constructor
        · intro hle
          have h1 : digitsLen (n / 10) ≤ d - 1 := by omega
          have h2 := hiff.1 (hrec.1 h1)
          omega
        · intro hlt
          rw [hpow] at hlt
          have h2 : digitsLen (n / 10) ≤ d - 1 := hrec.2 (hiff.2 hlt)
          omega

/-- Helper: `digitsLen` is monotone. -/
theorem digitsLen_mono {a b : Nat} (h : a ≤ b) : digitsLen a ≤ digitsLen b := by
  have hb := (digitsLen_le_iff b (digitsLen b) (digitsLen_pos b)).1 le_rfl
  exact (digitsLen_le_iff a (digitsLen b) (digitsLen_pos b)).2 (lt_of_le_of_lt h hb)

/-- Helper: any number of at least one million has at least 7 digits. -/
theorem seven_le_digitsLen {n : Nat} (h : 1000000 ≤ n) : 7 ≤ digitsLen n := by
  by_contra hlt
  push_neg at hlt
  have h6 : digitsLen n ≤ 6 := by omega
  have := (digitsLen_le_iff n 6 (by omega)).1 h6
  norm_num at this
  omega

/-- Helper: the width loop answers 7 as soon as the list contains a stdin
name or a non-regular entry, wherever it sits. -/
theorem scw_loop_stop (fs : List FileMeta) :
    ∀ cw ts, (FileMeta.stdinName ∈ fs ∨ FileMeta.nonRegular ∈ fs) →
      scw_loop cw ts fs = 7 := by
  induction fs with
  | nil => intro cw ts h; simp at h
  | cons f rest ih =>
    intro cw ts h
    cases f with
    | stdinName => rfl
    | nonRegular => rfl
    | statFailed =>
      have hrest : FileMeta.stdinName ∈ rest ∨ FileMeta.nonRegular ∈ rest := by
        rcases h with h | h <;> [left; right] <;> simpa using h
      exact ih cw ts hrest
    | regular size =>
      have hrest : FileMeta.stdinName ∈ rest ∨ FileMeta.nonRegular ∈ rest := by
        rcases h with h | h <;> [left; right] <;> simpa using h
      show (if 7 ≤ max cw (digitsLen (ts + size)) then 7
        else scw_loop (max cw (digitsLen (ts + size))) (ts + size) rest) = 7
      split
      · rfl
      · exact ih _ _ hrest

/-- Helper: on a list with neither stdin names nor non-regular entries,
the width loop computes the digit count of the total size, clamped
between the incoming width and the cap of 7. -/
theorem scw_loop_char (fs : List FileMeta) :
    ∀ cw ts, FileMeta.stdinName ∉ fs → FileMeta.nonRegular ∉ fs →
      cw ≤ 7 → digitsLen ts ≤ cw →
      scw_loop cw ts fs = min 7 (max cw (digitsLen (ts + sumSizes fs))) := by
  induction fs with
  | nil =>
    intro cw ts _ _ h7 hts
    show cw = min 7 (max cw (digitsLen (ts + 0)))
    rw [Nat.add_zero]
    omega
  | cons f rest ih =>
    intro cw ts hs hn h7 hts
    cases f with
    | stdinName => simp at hs
    | nonRegular => simp at hn
    | statFailed =>
      have hs' : FileMeta.stdinName ∉ rest := fun h => hs (List.mem_cons_of_mem _ h)
      have hn' : FileMeta.nonRegular ∉ rest := fun h => hn (List.mem_cons_of_mem _ h)
      show scw_loop cw ts rest = min 7 (max cw (digitsLen (ts + sumSizes rest)))
      exact ih cw ts hs' hn' h7 hts
    | regular size =>
      have hs' : FileMeta.stdinName ∉ rest := fun h => hs (List.mem_cons_of_mem _ h)
      have hn' : FileMeta.nonRegular ∉ rest := fun h => hn (List.mem_cons_of_mem _ h)
      have hmono : digitsLen (ts + size) ≤ digitsLen (ts + size + sumSizes rest) :=
        digitsLen_mono (by omega)
      show (if 7 ≤ max cw (digitsLen (ts + size)) then 7
        else scw_loop (max cw (digitsLen (ts + size))) (ts + size) rest) =
          min 7 (max cw (digitsLen (ts + (size + sumSizes rest))))
      have harg : ts + (size + sumSizes rest) = ts + size + sumSizes rest := by omega
      rw [harg]
      split
      · rename_i hcap
        omega
      · rename_i hcap
        rw [ih (max cw (digitsLen (ts + size))) (ts + size) hs' hn' (by omega)
          (le_max_right _ _)]
        omega

/-- C4 (amended): the GNU-family column width is computed once, before any
row is printed, from file metadata — 1 in total-only mode; 7 with no
named files, or whenever some named entry is stdin or not a regular file;
otherwise the digit count of the running sum of the regular files' byte
sizes capped at 7, hence 7 for two files one of which has 1,000,000
bytes.  The GNU formatter, however, pads multi-count rows to the fixed
width 7 (and prints single counts bare) without consulting the computed
width. -/
theorem C4_column_width_policy :
    (∀ fs, set_column_width true fs = 1) ∧
    set_column_width false [] = 7 ∧
    (∀ fs, (FileMeta.stdinName ∈ fs ∨ FileMeta.nonRegular ∈ fs) →
      set_column_width false fs = 7) ∧
    (∀ fs, fs ≠ [] → FileMeta.stdinName ∉ fs → FileMeta.nonRegular ∉ fs →
      set_column_width false fs = min 7 (digitsLen (sumSizes fs))) ∧
    (∀ s₁ s₂, 1000000 ≤ s₂ →
      set_column_width false [.regular s₁, .regular s₂] = 7) ∧
    (∀ counts name, counts.length ≠ 1 →
      gnu_print_line counts name = gnu_row_with_width 7 counts name) := by
  have hgen : ∀ fs, fs ≠ [] → FileMeta.stdinName ∉ fs → FileMeta.nonRegular ∉ fs →
      set_column_width false fs = min 7 (digitsLen (sumSizes fs)) := by
    intro fs hne hs hn
    unfold set_column_width
    rw [if_neg (by simp), if_neg hne]
    rw [scw_loop_char fs 1 0 hs hn (by omega) (by unfold digitsLen; norm_num)]
    have h1 := digitsLen_pos (sumSizes fs)
    have h0 : (0 : Nat) + sumSizes fs = sumSizes fs := by omega
    rw [h0]
    omega
  refine ⟨fun fs => rfl, rfl, ?_, hgen, ?_, ?_⟩
  · intro fs hmem
    unfold set_column_width
    rw [if_neg (by simp)]
    have hne : fs ≠ [] := by
      rcases hmem with h | h <;> exact List.ne_nil_of_mem h
    rw [if_neg hne]
    exact scw_loop_stop fs 1 0 hmem
  · intro s₁ s₂ h
    rw [hgen [.regular s₁, .regular s₂] (by simp) (by simp) (by simp)]
    have hsum : 1000000 ≤ sumSizes [FileMeta.regular s₁, FileMeta.regular s₂] := by
      show 1000000 ≤ s₁ + (s₂ + 0)
      omega
    have := seven_le_digitsLen hsum
    omega
  · intro counts name hlen
    unfold gnu_print_line gnu_row_with_width
    rw [if_neg hlen]

/-- C4 witness: the amended theorem applied to two concrete files of
5 and 1,000,000 bytes (the computed width is 7), to a total-only run
(width 1), and to a concrete two-count GNU row, which is padded to 7. -/
theorem C4_column_width_policy_witness :
    set_column_width false [.regular 5, .regular 1000000] = 7 ∧
    set_column_width true [.regular 5, .regular 1000000] = 1 ∧
    gnu_print_line [3, 7] "f" = gnu_row_with_width 7 [3, 7] "f" ∧
    gnu_row_with_width 7 [3, 7] "f" = "      3       7 f" :=
  ⟨C4_column_width_policy.2.2.2.2.1 5 1000000 (by decide),
    C4_column_width_policy.1 [.regular 5, .regular 1000000],
    C4_column_width_policy.2.2.2.2.2 [3, 7] "f" (by decide),
    by decide⟩

/-- Helper: a line width scan starting from a non-negative width stays
non-negative (tabs jump to a positive multiple of 8, other characters add
a natural number). -/
theorem lineWidthFrom_nonneg : ∀ (l : List Nat) (start : Int),
    0 ≤ start → 0 ≤ lineWidthFrom start l := by
  intro l
  induction l with
  | nil => intro s hs; exact hs
  | cons c rest ih =>
    intro s hs
    unfold lineWidthFrom
    split
    · apply ih
      have h8 : 0 ≤ Int.fdiv s 8 := Int.fdiv_nonneg hs (by omega)
      omega
    · apply ih
      have hcw : (0 : Int) ≤ (char_width c : Int) := Int.ofNat_nonneg _
      omega

/-- Helper: `finishLines` keeps both the maximum and the carried width
non-negative. -/
theorem finishLines_nonneg : ∀ (ps : List (List Nat)) (maxw : Int), 0 ≤ maxw →
    0 ≤ (finishLines maxw ps).1 ∧ 0 ≤ (finishLines maxw ps).2 := by
  intro ps
  induction ps with
  | nil => intro maxw h; exact ⟨h, le_refl 0⟩
  | cons p rest ih =>
    intro maxw h
    cases rest with
    | nil => exact ⟨h, lineWidthFrom_nonneg p 0 le_rfl⟩
    | cons q rest2 =>
      show 0 ≤ (finishLines (max maxw (lineWidthFrom 0 p)) (q :: rest2)).1 ∧
        0 ≤ (finishLines (max maxw (lineWidthFrom 0 p)) (q :: rest2)).2
      exact ih _ (le_trans h (le_max_left _ _))

/-- Helper: the max-line-width block keeps both results non-negative. -/
theorem widthChunk_nonneg (t : List Nat) (curr maxw : Int)
    (hc : 0 ≤ curr) (hm : 0 ≤ maxw) :
    0 ≤ (widthChunk curr maxw t).1 ∧ 0 ≤ (widthChunk curr maxw t).2 := by
  unfold widthChunk
  rcases h : t.splitOn 10 with _ | ⟨first, rest⟩
  · exact ⟨hm, hc⟩
  · cases rest with
    | nil => exact ⟨hm, lineWidthFrom_nonneg first 0 le_rfl⟩
    | cons q rest2 =>
      exact finishLines_nonneg (q :: rest2) _ (le_trans hm (le_max_left _ _))

/-- Helper: a chunk containing a non-whitespace byte has at least one
word run. -/
theorem numWords_pos : ∀ (l : List Nat), (∃ b ∈ l, isSpaceByte b = false) →
    1 ≤ numWords l := by
  intro l
  induction l with
  | nil =>
    rintro ⟨b, hb, _⟩
    simp at hb
  | cons c rest ih =>
    rintro ⟨b, hb, hbs⟩
    unfold numWords numWordsAux
    by_cases hc : isSpaceByte c = true
    · rw [if_pos hc]
      apply ih
      refine ⟨b, ?_, hbs⟩
      rcases List.mem_cons.1 hb with rfl | hmem
      · rw [hc] at hbs
        cases hbs
      · exact hmem
    · rw [if_neg hc]
      simp

/-- Helper: if the last byte (default space) is non-whitespace, some byte
of the chunk is non-whitespace. -/
theorem lastD_nonspace : ∀ (l : List Nat),
    isSpaceByte (l.getLastD 0x20) = false → ∃ b ∈ l, isSpaceByte b = false := by
  intro l
  induction l with
  | nil =>
    intro h
    simp [List.getLastD] at h
    cases h
  | cons c rest ih =>
    intro h
    cases rest with
    | nil =>
      exact ⟨c, by simp, by simpa [List.getLastD] using h⟩
    | cons c2 rest2 =>
      have h2 : isSpaceByte ((c2 :: rest2).getLastD 0x20) = false := by
        simpa [List.getLastD] using h
      obtain ⟨b, hb, hbs⟩ := ih h2
      exact ⟨b, List.mem_cons_of_mem _ hb, hbs⟩

/-- Helper: if the first byte (default space) is non-whitespace, some
byte of the chunk is non-whitespace. -/
theorem headD_nonspace : ∀ (l : List Nat),
    isSpaceByte (l.headD 0x20) = false → ∃ b ∈ l, isSpaceByte b = false := by
  intro l h
  cases l with
  | nil =>
    simp [List.headD] at h
    cases h
  | cons c rest =>
    exact ⟨c, by simp, by simpa [List.headD] using h⟩

/-- Helper: one loop iteration of `count_stream` preserves the
non-negativity invariant, including across the compensating word
decrement: the decrement happens only when the previous chunk ended
mid-word (so a word is already counted) and the new chunk starts a run
(so at least one run is added back). -/
theorem stepChunk_good (opts : Opts) (st : StreamState) (chunk : List Nat)
    (h : goodState st) : goodState (stepChunk opts st chunk) := by
  obtain ⟨hl, hw, hc, hb, hm, hcw, hiw⟩ := h
  have hlen : (0 : Int) ≤ (chunk.length : Int) := Int.ofNat_nonneg _
  have hWfacts : ∀ t : List Nat,
      0 ≤ (widthChunk st.curr_width st.cnt.max_line_length t).1 ∧
      0 ≤ (widthChunk st.curr_width st.cnt.max_line_length t).2 :=
    fun t => widthChunk_nonneg t _ _ hcw hm
  by_cases hln : opts.lines = true <;>
  by_cases hwd : opts.words = true <;>
  by_cases hch : opts.chars = true <;>
  by_cases hml : opts.max_line_length = true <;>
  by_cases hdec : (st.in_word && !(isSpaceByte (chunk.headD 0x20))) = true <;>
    simp only [stepChunk, hln, hwd, hch, hml, hdec, if_true, if_false,
      Bool.false_eq_true, ite_true, ite_false, eq_self_iff_true] <;>
    unfold goodState <;>
    simp only [] <;>
    refine ⟨?_, ?_, ?_, ?_, ?_, ?_, ?_⟩ <;>
    first
      | omega
      | exact (hWfacts _).1
      | exact (hWfacts _).2
      | exact hiw
      | (have h1 : st.in_word = true ∧ isSpaceByte (chunk.headD 0x20) = false := by
           simpa using hdec
         have hiw1 := hiw h1.1
         have hnp := numWords_pos chunk (headD_nonspace chunk h1.2)
         omega)
      | (intro hlast
         have hl2 : isSpaceByte (chunk.getLastD 0x20) = false := by simpa using hlast
         have hnp := numWords_pos chunk (lastD_nonspace chunk hl2)
         omega)

/-- Helper: the whole read loop preserves the invariant. -/
theorem count_stream_loop_good (opts : Opts) :
    ∀ (chunks : List (List Nat)) (st : StreamState),
      goodState st → goodState (count_stream_loop opts st chunks) := by
  intro chunks
  induction chunks with
  | nil => intro st h; exact h
  | cons c rest ih =>
    intro st h
    unfold count_stream_loop
    split
    · exact h
    · exact ih _ (stepChunk_good opts st c h)

/-- C10: after any sequence of chunks has been fed to `count_stream`,
under any combination of enabled fields, every field of the accumulator
is non-negative — in particular the word count never goes negative
despite the compensating decrement. -/
theorem C10_counts_nonneg (opts : Opts) (chunks : List (List Nat)) :
    0 ≤ (count_stream opts chunks).lines ∧
    0 ≤ (count_stream opts chunks).words ∧
    0 ≤ (count_stream opts chunks).chars ∧
    0 ≤ (count_stream opts chunks).bytes ∧
    0 ≤ (count_stream opts chunks).max_line_length := by
  have h := count_stream_loop_good opts chunks initState
    ⟨le_refl 0, le_refl 0, le_refl 0, le_refl 0, le_refl 0, le_refl 0, by intro h; cases h⟩
  obtain ⟨h1, h2, h3, h4, h5, _, _⟩ := h
  exact ⟨h1, h2, h3, h4, h5⟩

end VWC
